import Mathlib

/-!
Verification of the PDF annotation/render pipeline of the SmartReader
application (`src/components/SmartReader.tsx`) and the audio noise gate of
the live tutoring service (`src/unnamed/part_000`, class `LiveService`).

JavaScript numbers are modelled as rationals (`ℚ`); nullable values as
`Option`; DOM canvas integer attributes as `ℤ` with the WebIDL
float-to-unsigned-long truncation made explicit.
-/

/-! ### Definitions -/

/-! ## Data model (src/types.ts) -/

/-- A raw or normalized drawing point, `DrawingPoint` in `src/types.ts`. -/
structure DrawingPoint where
  x : ℚ
  y : ℚ
deriving DecidableEq, Repr

/-- A finished stroke, `DrawingPath` in `src/types.ts`: ordered points plus
pen colour and unscaled width. -/
structure DrawingPath where
  points : List DrawingPoint
  color : String
  width : ℚ
deriving DecidableEq, Repr

/-- The stored annotation record, `PageAnnotation` in `SmartReader.tsx`
(lines 17-20): a stroke bound to a 0-based page index.  (The Lean name is
shortened to `PageAnnot`.) -/
structure PageAnnot where
  pageIndex : ℕ
  path : DrawingPath
deriving DecidableEq, Repr

/-! ## C1: the single annotation slot

`SmartReader` keeps the whole drawing state in one nullable `useState`
slot, `activeAnnotation : PageAnnotation | null` (line 258).  The three
handlers that ever write it are
`handleStartDraw` (lines 419-421, sets it to `null`),
`handleFinishDraw` (lines 423-426, sets it to `{pageIndex, path}`), and
`clearDrawings` (lines 433-436, sets it to `null`).
We model the sequence of those calls as a list of events folded over the
slot. -/

/-- One controller-level drawing event: `onStartDraw`, `onFinishDraw`, or
the eraser-button clear. -/
inductive DrawEvent where
  | startDraw : DrawEvent
  | finishDraw (pageIndex : ℕ) (path : DrawingPath) : DrawEvent
  | clear : DrawEvent
deriving DecidableEq, Repr

/-- State transition of the `activeAnnotation` slot under one event,
mirroring `handleStartDraw`, `handleFinishDraw` and `clearDrawings`
(`SmartReader.tsx` lines 419-436). -/
def stepAnnot (_s : Option PageAnnot) : DrawEvent → Option PageAnnot
  | .startDraw => none
  | .finishDraw i p => some ⟨i, p⟩
  | .clear => none

/-- Folding a whole event sequence over the slot. -/
def runDrawEvents (s : Option PageAnnot) (evs : List DrawEvent) : Option PageAnnot :=
  evs.foldl stepAnnot s

/-- The annotation a given page surface receives from the slot, mirroring
`activeAnnotation?.pageIndex === i ? activeAnnotation.path : null`
(`SmartReader.tsx` line 574). -/
def displayedAnnot (s : Option PageAnnot) (i : ℕ) : Option DrawingPath :=
  match s with
  | none => none
  | some a => if a.pageIndex = i then some a.path else none

/-! ## C9: fit-to-width / fit-to-page scale

`handleFit` (`SmartReader.tsx` lines 438-463): takes the current page's
viewport at scale 1, subtracts a fixed padding of 32 from the scroll
container's client dimensions, divides, and clamps with
`Math.min(Math.max(newScale, 0.4), 4.0)`. -/

/-- Which axis a fit request uses (`'width' | 'page'`). -/
inductive FitType where
  | width : FitType
  | page : FitType
deriving DecidableEq, Repr

/-- The fixed padding subtracted from the container dimensions
(`SmartReader.tsx` line 446). -/
def fitPadding : ℚ := 32

/-- Scale computed by `handleFit` (`SmartReader.tsx` lines 446-457) from the
page's natural viewport at scale 1 and the scroll container's client
dimensions. -/
def handleFit (t : FitType) (naturalW naturalH clientW clientH : ℚ) : ℚ :=
  let availableWidth := clientW - fitPadding
  let availableHeight := clientH - fitPadding
  let newScale : ℚ :=
    match t with
    | .width => availableWidth / naturalW
    | .page => availableHeight / naturalH
  min (max newScale 0.4) 4.0

/-! ## C10: the microphone noise gate

`LiveService.startAudioStreaming` (`src/unnamed/part_000` lines 255-282):
per captured buffer, scan for the maximum absolute sample amplitude; only
when it strictly exceeds `noiseThreshold = 0.0025` (line 101) is the buffer
PCM-encoded and sent; otherwise nothing at all is sent for that buffer. -/

/-- The noise gate threshold, `LiveService.noiseThreshold`
(`src/unnamed/part_000` line 101). -/
def noiseThreshold : ℚ := 0.0025

/-- Maximum absolute amplitude scan (`src/unnamed/part_000` lines 268-271):
`maxAmplitude` starts at 0 and is replaced whenever `|sample|` exceeds it. -/
def maxAmplitude (data : List ℚ) : ℚ :=
  data.foldl (fun m v => if |v| > m then |v| else m) 0

/-- JavaScript `Int16Array` element coercion used by `pcmFloat32ToBase64`
(`src/unnamed/part_000` lines 350-357): truncate toward zero, then wrap into
the signed 16-bit range. -/
def jsToInt16 (v : ℚ) : ℤ :=
  let t : ℤ := if 0 ≤ v then ⌊v⌋ else -⌊-v⌋
  let m := t % 65536
  if m < 32768 then m else m - 65536

/-- PCM encoding of a captured buffer (`pcmFloat32ToBase64`, lines 350-357):
each float sample is multiplied by 32768 and stored as an `Int16`.  (Base64
packaging of the resulting bytes is byte-level serialization and is not
modelled.) -/
def pcmEncode (data : List ℚ) : List ℤ :=
  data.map (fun v => jsToInt16 (v * 32768))

/-- The per-buffer body of `processor.onaudioprocess`
(`src/unnamed/part_000` lines 265-281): the buffer is encoded and sent iff
its maximum absolute amplitude strictly exceeds the noise threshold;
otherwise no message of any kind is produced for it. -/
def onAudioProcess (data : List ℚ) : Option (List ℤ) :=
  if maxAmplitude data > noiseThreshold then some (pcmEncode data) else none

/-! ## C4: raster dimensions after a render at scale `s`

The render effect (`SmartReader.tsx` lines 76-136) resolves the page
viewport at the current scale (line 87) and resizes the backing canvas when
its pixel dimensions differ (lines 94-98).  `canvas.width`/`canvas.height`
are WebIDL `unsigned long` attributes: assigning a fractional JavaScript
number truncates it toward zero and wraps modulo 2^32 (ToUint32); no
rounding to nearest happens anywhere. -/

/-- JavaScript truncation toward zero of a number, as performed by ToInt32 /
ToUint32 / typed-array element conversion before any wrapping. -/
def jsTrunc (v : ℚ) : ℤ :=
  if 0 ≤ v then ⌊v⌋ else -⌊-v⌋

/-- WebIDL `unsigned long` conversion (ToUint32): truncate toward zero, wrap
modulo `2^32`.  Applied on assignment to `canvas.width` / `canvas.height`. -/
def jsToUint32 (v : ℚ) : ℤ :=
  jsTrunc v % 4294967296

/-- Modelled from the spec: the external rendering library's
`getViewport({scale})` (consumed contract, spec section 6; the library
itself is not part of this repository).  Per spec section 3 a viewport is a
pure function of page and scale, with natural dimensions at scale 1, so the
viewport at scale `s` is the natural size multiplied by `s`. -/
def getViewport (naturalW naturalH s : ℚ) : ℚ × ℚ :=
  (naturalW * s, naturalH * s)

/-- The conditional canvas resize of the render effect (`SmartReader.tsx`
lines 94-98): if either stored integer dimension differs from the float
viewport dimension, both attributes are assigned the viewport values
(undergoing the ToUint32 coercion). -/
def resizeCanvas (cw ch : ℤ) (vw vh : ℚ) : ℤ × ℤ :=
  if (cw : ℚ) ≠ vw ∨ (ch : ℚ) ≠ vh then (jsToUint32 vw, jsToUint32 vh)
  else (cw, ch)

/-- Canvas pixel dimensions after a render pass at scale `s` on a page of
natural dimensions `naturalW × naturalH`, starting from stored dimensions
`(cw, ch)` (`SmartReader.tsx` lines 87 and 94-98). -/
def renderCanvasDims (cw ch : ℤ) (naturalW naturalH s : ℚ) : ℤ × ℤ :=
  resizeCanvas cw ch (getViewport naturalW naturalH s).1 (getViewport naturalW naturalH s).2

/-! ## C3: normalization of finished strokes

`getPoint` (`SmartReader.tsx` lines 163-169) converts a pointer/touch event
into raw canvas-relative device pixels by subtracting the canvas bounding
rectangle origin; `startDrawing` (171-177), `draw` (179-186) accumulate raw
points; `stopDrawing` (188-208) divides every accumulated point by the
raster's current pixel width/height and emits the finished stroke.  Nothing
clamps the raw coordinates: a touch-move outside the canvas (touch events
keep firing on the element where the gesture started) produces a raw point
outside `[0,w]×[0,h]` and hence a normalized point outside `[0,1]²`. -/

/-- Client coordinates of a pointer/touch event (`clientX`/`clientY`). -/
structure ClientPoint where
  clientX : ℚ
  clientY : ℚ
deriving DecidableEq, Repr

/-- Origin of the canvas bounding client rectangle
(`getBoundingClientRect`). -/
structure RectOrigin where
  left : ℚ
  top : ℚ
deriving DecidableEq, Repr

/-- The tool mode of the reader (`'pen' | 'move' | 'highlighter'`). -/
inductive ToolMode where
  | pen : ToolMode
  | move : ToolMode
  | highlighter : ToolMode
deriving DecidableEq, Repr

/-- `getPoint` (`SmartReader.tsx` lines 163-169): event client coordinates
minus the canvas rectangle origin.  (The `canvasRef.current` null guard is
not modelled; a gesture presupposes a mounted canvas.) -/
def getPoint (e : ClientPoint) (rect : RectOrigin) : DrawingPoint :=
  ⟨e.clientX - rect.left, e.clientY - rect.top⟩

/-- Local drawing state of one page surface: the `isDrawing` flag and the
accumulated raw `currentPath` (`SmartReader.tsx` lines 47-48). -/
structure GestureState where
  isDrawing : Bool
  currentPath : List DrawingPoint
deriving DecidableEq, Repr

/-- `startDrawing` (`SmartReader.tsx` lines 171-177): in move mode a no-op,
otherwise begin drawing with the event's raw point as the path. -/
def startDrawing (mode : ToolMode) (e : ClientPoint) (rect : RectOrigin)
    (s : GestureState) : GestureState :=
  if mode = .move then s else ⟨true, [getPoint e rect]⟩

/-- `draw` (`SmartReader.tsx` lines 179-186): while drawing and not in move
mode, append the event's raw point to the current path. -/
def draw (mode : ToolMode) (e : ClientPoint) (rect : RectOrigin)
    (s : GestureState) : GestureState :=
  if s.isDrawing = false ∨ mode = .move then s
  else ⟨s.isDrawing, s.currentPath ++ [getPoint e rect]⟩

/-- Point normalization of `stopDrawing` (`SmartReader.tsx` line 197): each
raw point is divided componentwise by the raster's pixel dimensions. -/
def normalizePoints (pts : List DrawingPoint) (w h : ℚ) : List DrawingPoint :=
  pts.map (fun p => ⟨p.x / w, p.y / h⟩)

/-- `stopDrawing` (`SmartReader.tsx` lines 188-208): when a nonempty path
was being drawn, emit the finished stroke with normalized points and the
active tool's colour and width; reset the local state. -/
def stopDrawing (mode : ToolMode) (penColor : String) (penWidth : ℚ)
    (highlighterColor : String) (highlighterWidth : ℚ)
    (s : GestureState) (w h : ℚ) : GestureState × Option DrawingPath :=
  if s.isDrawing = false then (s, none)
  else
    (⟨false, []⟩,
      if s.currentPath = [] then none
      else some
        ⟨normalizePoints s.currentPath w h,
         if mode = .pen then penColor else highlighterColor,
         if mode = .pen then penWidth else highlighterWidth⟩)

/-- One whole gesture: pointer-down at `e0`, pointer-moves `moves`,
pointer-up with the raster at `w × h` pixels; yields the emitted stroke, if
any. -/
def runGesture (mode : ToolMode) (rect : RectOrigin) (e0 : ClientPoint)
    (moves : List ClientPoint) (w h : ℚ) (penColor : String) (penWidth : ℚ)
    (highlighterColor : String) (highlighterWidth : ℚ) : Option DrawingPath :=
  let s1 := startDrawing mode e0 rect ⟨false, []⟩
  let s2 := moves.foldl (fun s e => draw mode e rect s) s1
  (stopDrawing mode penColor penWidth highlighterColor highlighterWidth s2 w h).2

/-! ## C8: quadratic-midpoint path smoothing and overlay scaling

`drawSmoothPath` (`SmartReader.tsx` lines 139-160) issues canvas 2D path
commands: `moveTo` the first scaled point; for a single-point path a
degenerate `lineTo` back onto it (a dot under round caps); otherwise a
`quadraticCurveTo` through each interior point to the midpoint with its
successor, and a final straight `lineTo` the last point.  The render effect
calls it with the viewport dimensions for the stored annotation (line 113)
and with scale `(1, 1)` for the in-progress stroke (line 120). -/

/-- A canvas 2D path command issued by `drawSmoothPath`. -/
inductive PathCmd where
  | moveTo (p : DrawingPoint)
  | lineTo (p : DrawingPoint)
  | quadTo (ctrl endp : DrawingPoint)
deriving DecidableEq, Repr

/-- Componentwise scaling of a point by `(sx, sy)`, as applied to every
coordinate passed to the canvas in `drawSmoothPath`. -/
def scalePt (sx sy : ℚ) (p : DrawingPoint) : DrawingPoint :=
  ⟨p.x * sx, p.y * sy⟩

/-- Midpoint of two points (`SmartReader.tsx` lines 151-154). -/
def midPt (p q : DrawingPoint) : DrawingPoint :=
  ⟨(p.x + q.x) / 2, (p.y + q.y) / 2⟩

/-- The quadratic segments of the `for` loop (`SmartReader.tsx` lines
150-156): one `quadraticCurveTo` per consecutive pair of the tail of the
point list, with the pair's first point as control and their midpoint as
endpoint (all scaled). -/
def smoothQuads (sx sy : ℚ) : List DrawingPoint → List PathCmd
  | p :: q :: rest =>
      .quadTo (scalePt sx sy p) (scalePt sx sy (midPt p q))
        :: smoothQuads sx sy (q :: rest)
  | _ => []

/-- `drawSmoothPath` (`SmartReader.tsx` lines 139-160) as the list of path
commands it issues. -/
def drawSmoothPath (points : List DrawingPoint) (sx sy : ℚ) : List PathCmd :=
  match points with
  | [] => []
  | [p] => [.moveTo (scalePt sx sy p), .lineTo (scalePt sx sy p)]
  | p :: q :: rest =>
      (.moveTo (scalePt sx sy p) :: smoothQuads sx sy (q :: rest))
        ++ [.lineTo (scalePt sx sy (List.getLast (q :: rest) (by simp)))]

/-- The path of the claim's words: for `p₀..pₙ` start at `p₀`, for `i` in
`1..n−1` draw a quadratic with control `pᵢ` ending at the midpoint of `pᵢ`
and `pᵢ₊₁`, and finish with a straight segment to `pₙ` (all scaled).  Stated
with default-valued indexing so it is total. -/
def claimSmoothPath (points : List DrawingPoint) (sx sy : ℚ) : List PathCmd :=
  let n := points.length - 1
  (.moveTo (scalePt sx sy (points.getD 0 ⟨0, 0⟩))
    :: (List.range (n - 1)).map (fun k =>
        .quadTo (scalePt sx sy (points.getD (k + 1) ⟨0, 0⟩))
          (scalePt sx sy
            (midPt (points.getD (k + 1) ⟨0, 0⟩) (points.getD (k + 2) ⟨0, 0⟩)))))
    ++ [.lineTo (scalePt sx sy (points.getD n ⟨0, 0⟩))]

/-- The overlay pass of the render effect (`SmartReader.tsx` lines
110-121): the stored annotation path is drawn scaled by the viewport
dimensions, then a nonempty in-progress stroke is drawn at scale `(1, 1)`
(raw device pixels).  Stroke colour/width settings are not modelled; only
the issued path geometry. -/
def overlayCmds (stored : Option DrawingPath) (currentPath : List DrawingPoint)
    (vw vh : ℚ) : List PathCmd :=
  (match stored with
   | some a => drawSmoothPath a.points vw vh
   | none => []) ++
  (if currentPath = [] then [] else drawSmoothPath currentPath 1 1)

/-! ## Text extraction (C5, C6, C7)

`getPageText` inside the text-extraction effect (`SmartReader.tsx` lines
309-391): per page, group text items into lines by y within a ±6 tolerance
(lines 325-340), sort lines by descending y (line 342), sort items in a
line by ascending x (lines 345-349), join item strings inserting a single
space only when the gap to the previous item's right edge exceeds 3 units
(lines 351-367), head the page with a `--- [Page n] ---` marker (line 371);
the effect fetches pages `{current−1, current, current+1}`, drops `null`
(out of range) and `''` (no items) results with `filter(Boolean)`, and
joins with newlines (lines 374-382). -/

/-- A text item of the rendering library's `getTextContent` result
(`PDFTextItem` in `src/types.ts`): string, transform matrix (6 entries,
`transform[4]`/`transform[5]` the x/y baseline position), width.  A missing
transform is modelled as the empty list.  (For a present transform shorter
than 5 entries JavaScript would read `undefined`; the model reads the
default 0.  No claim involves such items.) -/
structure PDFTextItem where
  str : String
  transform : List ℚ
  width : ℚ
deriving DecidableEq, Repr

/-- The x baseline position `tx[4]` with the code's fallback
`item.transform || [0,0,0,0,0,0]` (`SmartReader.tsx` lines 346, 355-356). -/
def itemX (it : PDFTextItem) : ℚ :=
  it.transform.getD 4 0

/-- The y baseline position `item.transform[5]` (`SmartReader.tsx` line
333). -/
def itemY (it : PDFTextItem) : ℚ :=
  it.transform.getD 5 0

/-- One accumulated line: representative y (the first member's y) and its
items in insertion order (`SmartReader.tsx` line 325). -/
structure TextLine where
  y : ℚ
  items : List PDFTextItem
deriving DecidableEq, Repr

/-- The line-grouping tolerance (`SmartReader.tsx` line 326). -/
def yTolerance : ℚ := 6

/-- `lines.find(l => Math.abs(l.y - y) < yTolerance)` followed by pushing
the item into the found line, or pushing a fresh `{y, items: [item]}` line
at the end (`SmartReader.tsx` lines 334-339). -/
def insertItem : List TextLine → ℚ → PDFTextItem → List TextLine
  | [], y, it => [⟨y, [it]⟩]
  | l :: ls, y, it =>
      if |l.y - y| < yTolerance then ⟨l.y, l.items ++ [it]⟩ :: ls
      else l :: insertItem ls y it

/-- One step of the grouping loop (`SmartReader.tsx` lines 328-340): an
item with a missing or short transform becomes its own `{y: 0}` line;
otherwise it joins the first line within tolerance of its y. -/
def addToLines (lines : List TextLine) (it : PDFTextItem) : List TextLine :=
  if it.transform.length < 6 then lines ++ [⟨0, [it]⟩]
  else insertItem lines (itemY it) it

/-- The full grouping pass over a page's items (`SmartReader.tsx` lines
328-340). -/
def groupLines (items : List PDFTextItem) : List TextLine :=
  items.foldl addToLines []

/-- `lines.sort((a, b) => b.y - a.y)` (`SmartReader.tsx` line 342):
descending representative y (stable). -/
def sortLines (lines : List TextLine) : List TextLine :=
  lines.mergeSort (fun a b => decide (b.y ≤ a.y))

/-- `line.items.sort((a, b) => xa - xb)` (`SmartReader.tsx` lines 345-349):
ascending x (stable). -/
def sortItems (l : TextLine) : List PDFTextItem :=
  l.items.mergeSort (fun a b => decide (itemX a ≤ itemX b))

/-- The word-spacing fold (`SmartReader.tsx` lines 351-367): `lastEnd`
starts at −1; before each item a single space is emitted when
`lastEnd !== -1` and the item's x strictly exceeds `lastEnd + 3`; after the
item `lastEnd` becomes `x + width`. -/
def lineTextAux (lastEnd : ℚ) : List PDFTextItem → String
  | [] => ""
  | it :: rest =>
      (if lastEnd ≠ -1 ∧ itemX it > lastEnd + 3 then " " else "")
        ++ it.str ++ lineTextAux (itemX it + it.width) rest

/-- The reconstructed text of one line (`SmartReader.tsx` lines 344-369):
sort its items by x, then run the word-spacing fold from the sentinel −1. -/
def renderLine (l : TextLine) : String :=
  lineTextAux (-1) (sortItems l)

/-- The grouped-and-sorted lines of a page (`SmartReader.tsx` lines
328-342). -/
def pageLines (items : List PDFTextItem) : List TextLine :=
  sortLines (groupLines items)

/-- `textLines.join('\n')` (`SmartReader.tsx` line 371). -/
def pageBody (items : List PDFTextItem) : String :=
  String.intercalate "\n" ((pageLines items).map renderLine)

/-- A loaded document for text extraction: the 0-indexed list of per-page
text item lists. -/
structure PDFDoc where
  pages : List (List PDFTextItem)
deriving DecidableEq, Repr

/-- `doc.numPages`. -/
def numPages (doc : PDFDoc) : ℕ :=
  doc.pages.length

/-- The items of a page by 0-based index. -/
def pageItems (doc : PDFDoc) (idx : ℤ) : List PDFTextItem :=
  doc.pages.getD idx.toNat []

/-- `getPageText(idx)` (`SmartReader.tsx` lines 317-372): `null` when out
of range, `''` when the page has no items, otherwise the page body headed
by the `--- [Page n] ---` marker (1-based) and ending with a newline. -/
def getPageText (doc : PDFDoc) (idx : ℤ) : Option String :=
  if idx < 0 ∨ (numPages doc : ℤ) ≤ idx then none
  else if pageItems doc idx = [] then some ""
  else some ("--- [Page " ++ toString (idx + 1) ++ "] ---\n"
    ++ pageBody (pageItems doc idx) ++ "\n")

/-- The delivered context (`SmartReader.tsx` lines 374-382): fetch pages
`{v−1, v, v+1}`, drop falsy results (`null` and `''`) with
`filter(Boolean)`, join with `'\n'`. -/
def combinedContext (doc : PDFDoc) (visible : ℤ) : String :=
  let pagesToFetch := [visible - 1, visible, visible + 1]
  let results := pagesToFetch.map (getPageText doc)
  String.intercalate "\n" ((results.filterMap id).filter (fun s => decide (s ≠ "")))

/-- The context C7 claims (stated from the claim's words, for comparison):
the pages `{v−1, v, v+1}` with only the out-of-range indices skipped, each
fetched in-range page's text headed by its 1-based page marker. -/
def claimedContext (doc : PDFDoc) (visible : ℤ) : String :=
  String.intercalate "\n"
    (([visible - 1, visible, visible + 1].filter
        (fun idx => decide (0 ≤ idx) && decide (idx < (numPages doc : ℤ)))).map
      (fun idx => "--- [Page " ++ toString (idx + 1) ++ "] ---\n"
        ++ pageBody (pageItems doc idx) ++ "\n"))

/-- The context of the amended C7: like `claimedContext` but also skipping
in-range pages with no text items (which the code's `filter(Boolean)` drops
as `''`, leaving them markerless). -/
def claimedContextAmended (doc : PDFDoc) (visible : ℤ) : String :=
  String.intercalate "\n"
    (([visible - 1, visible, visible + 1].filter
        (fun idx => decide (0 ≤ idx) && decide (idx < (numPages doc : ℤ))
          && !(pageItems doc idx == []))).map
      (fun idx => "--- [Page " ++ toString (idx + 1) ++ "] ---\n"
        ++ pageBody (pageItems doc idx) ++ "\n"))

/-! ## C2: a newer render supersedes an older one

The page render effect (`SmartReader.tsx` lines 76-136) runs once per
dependency change.  Each run declares `isCancelled = false` and
`renderTask = null` (lines 79-80), suspends at `await pdfDoc.getPage`
(line 84) and checks `isCancelled` on resumption (line 85); the block from
line 87 to starting the library render task (line 101) is synchronous (no
interleaving on the event loop); the task then paints pixels asynchronously
until its promise settles; the run suspends at `await renderTask.promise`
(line 102) and checks `isCancelled` again (line 104) before drawing the
overlay.  The effect cleanup (lines 132-135) sets `isCancelled = true` and
cancels the task; React runs the old run's cleanup before a newer run
begins.  We model the timeline as a list of events over run ordinals and
collect which run writes to the canvas at each event. -/

/-- Continuation point of one run of the render effect. -/
inductive RenderPC where
  | awaitingPage : RenderPC
  | awaitingPromise : RenderPC
  | done : RenderPC
deriving DecidableEq, Repr

/-- Per-run state: the closure's `isCancelled` flag (line 80) and the
run's continuation point. -/
structure RenderInst where
  cancelled : Bool
  pc : RenderPC
deriving DecidableEq, Repr

/-- Events on a page's render timeline, indexed by run ordinal:
`resumePage i` — run `i`'s `getPage` await resolves (line 85 check, then
the synchronous resize-and-start block, a canvas write);
`taskProgress i` — run `i`'s started render task paints pixels;
`resumePromise i` — run `i`'s `renderTask.promise` await settles (line 104
check, then the overlay write);
`cleanup i` — run `i`'s effect cleanup (lines 132-135): set `isCancelled`,
cancel the task. -/
inductive RenderEvent where
  | resumePage (i : ℕ) : RenderEvent
  | taskProgress (i : ℕ) : RenderEvent
  | resumePromise (i : ℕ) : RenderEvent
  | cleanup (i : ℕ) : RenderEvent
deriving DecidableEq, Repr

/-- Effect of one event: the new per-run states and the list of runs that
wrote to the page's canvas during the event. -/
def stepRender (σ : ℕ → RenderInst) : RenderEvent → (ℕ → RenderInst) × List ℕ
  | .resumePage i =>
      let st := σ i
      if st.pc = .awaitingPage then
        if st.cancelled then (Function.update σ i ⟨st.cancelled, .done⟩, [])
        else (Function.update σ i ⟨st.cancelled, .awaitingPromise⟩, [i])
      else (σ, [])
  | .taskProgress i =>
      let st := σ i
      if st.pc = .awaitingPromise ∧ st.cancelled = false then (σ, [i])
      else (σ, [])
  | .resumePromise i =>
      let st := σ i
      if st.pc = .awaitingPromise then
        if st.cancelled then (Function.update σ i ⟨st.cancelled, .done⟩, [])
        else (Function.update σ i ⟨st.cancelled, .done⟩, [i])
      else (σ, [])
  | .cleanup i =>
      let st := σ i
      (Function.update σ i ⟨true, st.pc⟩, [])

/-- Run a whole event list, collecting all canvas writes in order. -/
def runRender (σ : ℕ → RenderInst) : List RenderEvent → (ℕ → RenderInst) × List ℕ
  | [] => (σ, [])
  | e :: rest =>
      let s1 := stepRender σ e
      let s2 := runRender s1.1 rest
      (s2.1, s1.2 ++ s2.2)

/-! ### Theorems -/

/-! ## C1: the single annotation slot

`SmartReader` keeps the whole drawing state in one nullable `useState`
slot, `activeAnnotation : PageAnnotation | null` (line 258).  The three
handlers that ever write it are
`handleStartDraw` (lines 419-421, sets it to `null`),
`handleFinishDraw` (lines 423-426, sets it to `{pageIndex, path}`), and
`clearDrawings` (lines 433-436, sets it to `null`).
We model the sequence of those calls as a list of events folded over the
slot. -/

theorem runDrawEvents_append (s : Option PageAnnot) (l₁ l₂ : List DrawEvent) :
    runDrawEvents s (l₁ ++ l₂) = runDrawEvents (runDrawEvents s l₁) l₂ := by
  simp [runDrawEvents, List.foldl_append]

/-- C1. The application holds at most one stored annotation: after any event
sequence, (a) ending in `onStartDraw` the slot is empty, (b) ending in
`onFinishDraw(i, p)` the slot is exactly `{i, p}` (no merging or appending),
(c) ending in clear the slot is empty; (d) at any time at most one page
displays an annotation; and (e) finishing a stroke on page `B` after an
annotation existed on a different page `A` leaves `A` with no annotation and
`B` with exactly the new stroke. -/
theorem C1_single_annot_slot :
    (∀ (s : Option PageAnnot) (evs : List DrawEvent),
      runDrawEvents s (evs ++ [.startDraw]) = none) ∧
    (∀ (s : Option PageAnnot) (evs : List DrawEvent) (i : ℕ) (p : DrawingPath),
      runDrawEvents s (evs ++ [.finishDraw i p]) = some ⟨i, p⟩) ∧
    (∀ (s : Option PageAnnot) (evs : List DrawEvent),
      runDrawEvents s (evs ++ [.clear]) = none) ∧
    (∀ (s : Option PageAnnot) (i j : ℕ),
      displayedAnnot s i ≠ none → displayedAnnot s j ≠ none → i = j) ∧
    (∀ (s : Option PageAnnot) (mid : List DrawEvent) (A B : ℕ)
      (pA pB : DrawingPath), A ≠ B →
      displayedAnnot
        (runDrawEvents s ([.finishDraw A pA] ++ mid ++ [.finishDraw B pB])) A
        = none ∧
      displayedAnnot
        (runDrawEvents s ([.finishDraw A pA] ++ mid ++ [.finishDraw B pB])) B
        = some pB) := by
  refine ⟨?_, ?_, ?_, ?_, ?_⟩
  · intro s evs
    simp [runDrawEvents_append, runDrawEvents, stepAnnot]
  · intro s evs i p
    simp [runDrawEvents_append, runDrawEvents, stepAnnot]
  · intro s evs
    simp [runDrawEvents_append, runDrawEvents, stepAnnot]
  · intro s i j hi hj
    match s with
    | none => simp [displayedAnnot] at hi
    | some a =>
      simp only [displayedAnnot] at hi hj
      by_cases h1 : a.pageIndex = i
      · by_cases h2 : a.pageIndex = j
        · omega
        · simp [h2] at hj
      · simp [h1] at hi
  · intro s mid A B pA pB hAB
    have h : runDrawEvents s ([.finishDraw A pA] ++ mid ++ [.finishDraw B pB])
        = some ⟨B, pB⟩ := by
      have := runDrawEvents_append s ([.finishDraw A pA] ++ mid) [.finishDraw B pB]
      simp only [List.append_assoc] at this ⊢
      rw [this]
      simp [runDrawEvents, stepAnnot]
    rw [h]
    constructor
    · simp [displayedAnnot, Ne.symm hAB]
    · simp [displayedAnnot]

/-- Witness for C1 at concrete inputs: pages 2 and 5 (the spec test), a
stroke drawn on page 2 then replaced by one on page 5. -/
theorem C1_single_annot_slot_witness :
    displayedAnnot
      (runDrawEvents none
        ([.finishDraw 2 ⟨[⟨1, 1⟩], "#ef4444", 4⟩] ++ [.startDraw] ++
          [.finishDraw 5 ⟨[⟨2, 2⟩], "#ef4444", 4⟩])) 2 = none ∧
    displayedAnnot
      (runDrawEvents none
        ([.finishDraw 2 ⟨[⟨1, 1⟩], "#ef4444", 4⟩] ++ [.startDraw] ++
          [.finishDraw 5 ⟨[⟨2, 2⟩], "#ef4444", 4⟩])) 5
      = some ⟨[⟨2, 2⟩], "#ef4444", 4⟩ :=
  C1_single_annot_slot.2.2.2.2 none [.startDraw] 2 5
    ⟨[⟨1, 1⟩], "#ef4444", 4⟩ ⟨[⟨2, 2⟩], "#ef4444", 4⟩ (by decide)

/-! ## C9: fit-to-width / fit-to-page scale

`handleFit` (`SmartReader.tsx` lines 438-463): takes the current page's
viewport at scale 1, subtracts a fixed padding of 32 from the scroll
container's client dimensions, divides, and clamps with
`Math.min(Math.max(newScale, 0.4), 4.0)`. -/

/-- C9. A fit request yields `(clientDimension − 32) / naturalDimension` for
the relevant axis, clamped into `[0.4, 4.0]`; the result always lies in that
interval, and on the spec's example (natural width 600, container width 900)
it equals `(900 − 32)/600 = 217/150`. -/
theorem C9_fit_scale :
    (∀ naturalW naturalH clientW clientH : ℚ,
      handleFit .width naturalW naturalH clientW clientH
        = min (max ((clientW - 32) / naturalW) 0.4) 4.0) ∧
    (∀ naturalW naturalH clientW clientH : ℚ,
      handleFit .page naturalW naturalH clientW clientH
        = min (max ((clientH - 32) / naturalH) 0.4) 4.0) ∧
    (∀ (t : FitType) (naturalW naturalH clientW clientH : ℚ),
      0.4 ≤ handleFit t naturalW naturalH clientW clientH ∧
      handleFit t naturalW naturalH clientW clientH ≤ 4.0) ∧
    handleFit .width 600 800 900 700 = 217 / 150 := by
  refine ⟨?_, ?_, ?_, ?_⟩
  · intro naturalW naturalH clientW clientH
    simp [handleFit, fitPadding]
  · intro naturalW naturalH clientW clientH
    simp [handleFit, fitPadding]
  · intro t naturalW naturalH clientW clientH
    constructor
    · exact le_min (le_max_right _ _) (by norm_num)
    · exact min_le_right _ _
  · simp only [handleFit, fitPadding]
    norm_num

/-! ## C10: the microphone noise gate

`LiveService.startAudioStreaming` (`src/unnamed/part_000` lines 255-282):
per captured buffer, scan for the maximum absolute sample amplitude; only
when it strictly exceeds `noiseThreshold = 0.0025` (line 101) is the buffer
PCM-encoded and sent; otherwise nothing at all is sent for that buffer. -/

/-- C10. A captured buffer results in an encoded chunk being sent iff its
maximum absolute sample amplitude strictly exceeds the 0.0025 threshold; at
or below the threshold the buffer is dropped with no message. -/
theorem C10_noise_gate :
    (∀ data : List ℚ,
      (∃ c, onAudioProcess data = some c) ↔ maxAmplitude data > 0.0025) ∧
    (∀ data : List ℚ, maxAmplitude data ≤ 0.0025 → onAudioProcess data = none) ∧
    (∀ data : List ℚ, maxAmplitude data > 0.0025 →
      onAudioProcess data = some (pcmEncode data)) := by
  refine ⟨?_, ?_, ?_⟩
  · intro data
    constructor
    · rintro ⟨c, hc⟩
      by_contra h
      simp [onAudioProcess, noiseThreshold] at hc
      rcases hc with ⟨h1, -⟩
      exact h (by norm_num at h1 ⊢; exact h1)
    · intro h
      refine ⟨pcmEncode data, ?_⟩
      simp only [onAudioProcess, noiseThreshold]
      rw [if_pos (by norm_num at h ⊢; exact h)]
  · intro data h
    simp only [onAudioProcess, noiseThreshold]
    rw [if_neg (not_lt.mpr (by norm_num at h ⊢; exact h))]
  · intro data h
    simp only [onAudioProcess, noiseThreshold]
    rw [if_pos (by norm_num at h ⊢; exact h)]

/-- Witness for C10: a buffer whose loudest sample is `1/100 > 0.0025` is
sent; a buffer whose loudest sample is exactly `0.0025` is dropped. -/
theorem C10_noise_gate_witness :
    onAudioProcess [0, 1/100, -1/200] = some (pcmEncode [0, 1/100, -1/200]) ∧
    onAudioProcess [0, 1/400] = none :=
  ⟨C10_noise_gate.2.2 [0, 1/100, -1/200] (by norm_num [maxAmplitude, abs, max_def]),
   C10_noise_gate.2.1 [0, 1/400] (by norm_num [maxAmplitude, abs, max_def])⟩

/-! ## C4: raster dimensions after a render at scale `s`

The render effect (`SmartReader.tsx` lines 76-136) resolves the page
viewport at the current scale (line 87) and resizes the backing canvas when
its pixel dimensions differ (lines 94-98).  `canvas.width`/`canvas.height`
are WebIDL `unsigned long` attributes: assigning a fractional JavaScript
number truncates it toward zero and wraps modulo 2^32 (ToUint32); no
rounding to nearest happens anywhere. -/

theorem jsTrunc_of_nonneg {v : ℚ} (h : 0 ≤ v) : jsTrunc v = ⌊v⌋ := by
  simp [jsTrunc, h]

theorem jsToUint32_small {v : ℚ} (h0 : 0 ≤ v) (h1 : v < 4294967296) :
    jsToUint32 v = ⌊v⌋ := by
  rw [jsToUint32, jsTrunc_of_nonneg h0]
  refine Int.emod_eq_of_lt (Int.le_floor.mpr (by exact_mod_cast h0)) ?_
  have := Int.floor_le v
  have h2 : (⌊v⌋ : ℚ) < 4294967296 := lt_of_le_of_lt this h1
  exact_mod_cast h2

/-- C4 counterexample: rendering a page of natural width 601 at the in-range
scale `1/2` stores raster width `⌊300.5⌋ = 300`, not `round(300.5) = 301` as
the claim states. -/
theorem C4_round_counterexample :
    renderCanvasDims 0 0 601 792 (1/2)
      ≠ (round ((601 : ℚ) * (1/2)), round ((792 : ℚ) * (1/2))) ∧
    (0.4 : ℚ) ≤ 1/2 ∧ (1/2 : ℚ) ≤ 4.0 ∧
    renderCanvasDims 0 0 601 792 (1/2) = (300, 396) ∧
    round ((601 : ℚ) * (1/2)) = 301 := by
  have h : renderCanvasDims 0 0 601 792 (1/2) = (300, 396) := by
    norm_num [renderCanvasDims, resizeCanvas, getViewport, jsToUint32, jsTrunc]
  refine ⟨?_, by norm_num, by norm_num, h, by norm_num [round_eq]⟩
  rw [h]
  intro hcontra
  rw [Prod.mk.injEq] at hcontra
  have h1 : round ((601 : ℚ) * (1/2)) = 301 := by norm_num [round_eq]
  rw [h1] at hcontra
  omega

/-- C4 (amended). For every scale `s ∈ [0.4, 4.0]`, after rendering a page
at scale `s` the raster's pixel dimensions equal the viewport dimensions at
scale `s` truncated toward zero (the WebIDL float-to-`unsigned long`
coercion), i.e. `⌊naturalW·s⌋ × ⌊naturalH·s⌋` — truncation, not
round-to-nearest. -/
theorem C4_raster_dims_floor :
    ∀ (cw ch : ℤ) (naturalW naturalH s : ℚ),
      0.4 ≤ s → s ≤ 4.0 → 0 ≤ naturalW → 0 ≤ naturalH →
      naturalW * s < 4294967296 → naturalH * s < 4294967296 →
      renderCanvasDims cw ch naturalW naturalH s
        = (⌊naturalW * s⌋, ⌊naturalH * s⌋) := by
  intro cw ch naturalW naturalH s hs04 _hs4 hnw hnh hbw hbh
  have hs : (0 : ℚ) ≤ s := le_trans (by norm_num) hs04
  have hw0 : (0 : ℚ) ≤ naturalW * s := mul_nonneg hnw hs
  have hh0 : (0 : ℚ) ≤ naturalH * s := mul_nonneg hnh hs
  simp only [renderCanvasDims, getViewport, resizeCanvas]
  by_cases hcond : (cw : ℚ) ≠ naturalW * s ∨ (ch : ℚ) ≠ naturalH * s
  · rw [if_pos hcond, jsToUint32_small hw0 hbw, jsToUint32_small hh0 hbh]
  · rw [if_neg hcond]
    push_neg at hcond
    obtain ⟨h1, h2⟩ := hcond
    rw [← h1, ← h2, Int.floor_intCast, Int.floor_intCast]

/-- Witness for C4 (amended) at a concrete input: natural size 601 × 792 at
scale `1/2` yields raster 300 × 396. -/
theorem C4_raster_dims_floor_witness :
    renderCanvasDims 0 0 601 792 (1/2) = (⌊(601 : ℚ) * (1/2)⌋, ⌊(792 : ℚ) * (1/2)⌋) :=
  C4_raster_dims_floor 0 0 601 792 (1/2) (by norm_num) (by norm_num)
    (by norm_num) (by norm_num) (by norm_num) (by norm_num)

/-! ## C3: normalization of finished strokes

`getPoint` (`SmartReader.tsx` lines 163-169) converts a pointer/touch event
into raw canvas-relative device pixels by subtracting the canvas bounding
rectangle origin; `startDrawing` (171-177), `draw` (179-186) accumulate raw
points; `stopDrawing` (188-208) divides every accumulated point by the
raster's current pixel width/height and emits the finished stroke.  Nothing
clamps the raw coordinates: a touch-move outside the canvas (touch events
keep firing on the element where the gesture started) produces a raw point
outside `[0,w]×[0,h]` and hence a normalized point outside `[0,1]²`. -/

theorem runGesture_path (mode : ToolMode) (hmode : mode ≠ .move)
    (rect : RectOrigin) (e0 : ClientPoint) (moves : List ClientPoint)
    (w h : ℚ) (pc : String) (pw : ℚ) (hc : String) (hw : ℚ) :
    runGesture mode rect e0 moves w h pc pw hc hw
      = some
        ⟨normalizePoints ((e0 :: moves).map (fun e => getPoint e rect)) w h,
         if mode = .pen then pc else hc,
         if mode = .pen then pw else hw⟩ := by
  have hstart : startDrawing mode e0 rect ⟨false, []⟩ = ⟨true, [getPoint e0 rect]⟩ := by
    simp [startDrawing, hmode]
  have hfold : ∀ (ms : List ClientPoint) (acc : List DrawingPoint),
      ms.foldl (fun s e => draw mode e rect s) ⟨true, acc⟩
        = ⟨true, acc ++ ms.map (fun e => getPoint e rect)⟩ := by
    intro ms
    induction ms with
    | nil => intro acc; simp
    | cons e rest ih =>
      intro acc
      have hdraw : draw mode e rect ⟨true, acc⟩ = ⟨true, acc ++ [getPoint e rect]⟩ := by
        simp [draw, hmode]
      rw [List.foldl_cons, hdraw, ih]
      simp
  have h2 : moves.foldl (fun s e => draw mode e rect s) ⟨true, [getPoint e0 rect]⟩
      = ⟨true, (e0 :: moves).map (fun e => getPoint e rect)⟩ := by
    rw [hfold]
    simp
  simp only [runGesture, hstart, h2, stopDrawing]
  simp

/-- C3 counterexample: a pen gesture whose single touch point lies 5 px left
of the canvas (`clientX = −5` with the canvas rectangle at the origin) on a
100 × 100 raster emits a finished stroke whose normalized point has
`x = −1/20 < 0`, violating `0 ≤ x`. -/
theorem C3_norm_counterexample :
    runGesture .pen ⟨0, 0⟩ ⟨-5, 10⟩ [] 100 100 "#ef4444" 4 "y" 20
      = some ⟨[⟨-1/20, 1/10⟩], "#ef4444", 4⟩ ∧
    ¬(0 ≤ (-1/20 : ℚ)) := by
  constructor
  · rw [runGesture_path .pen (by decide) ⟨0, 0⟩ ⟨-5, 10⟩ [] 100 100 "#ef4444" 4 "y" 20]
    simp only [List.map_cons, List.map_nil, normalizePoints, getPoint]
    norm_num
  · norm_num

/-- C3 (amended). If every pointer/touch event of the gesture has client
coordinates inside the canvas bounding rectangle of a `w × h` raster
(`w, h > 0`), then every normalized point of the emitted stroke satisfies
`0 ≤ x ≤ 1` and `0 ≤ y ≤ 1`, where normalization divides each raw
device-pixel point by the raster dimensions.  (The claim as stated fails
for events outside the canvas, which the code never clamps.) -/
theorem C3_norm_bounds :
    ∀ (mode : ToolMode) (rect : RectOrigin) (e0 : ClientPoint)
      (moves : List ClientPoint) (w h : ℚ) (pc : String) (pw : ℚ)
      (hc : String) (hwid : ℚ) (path : DrawingPath),
      mode ≠ .move → 0 < w → 0 < h →
      (∀ e ∈ e0 :: moves,
        rect.left ≤ e.clientX ∧ e.clientX ≤ rect.left + w ∧
        rect.top ≤ e.clientY ∧ e.clientY ≤ rect.top + h) →
      runGesture mode rect e0 moves w h pc pw hc hwid = some path →
      ∀ q ∈ path.points, 0 ≤ q.x ∧ q.x ≤ 1 ∧ 0 ≤ q.y ∧ q.y ≤ 1 := by
  intro mode rect e0 moves w h pc pw hc hwid path hmode hw0 hh0 hbounds hrun
  rw [runGesture_path mode hmode] at hrun
  have hpts : path.points
      = normalizePoints ((e0 :: moves).map (fun e => getPoint e rect)) w h := by
    injection hrun with h
    rw [← h]
  intro q hq
  rw [hpts] at hq
  simp only [normalizePoints, List.mem_map] at hq
  obtain ⟨p, hp, hq⟩ := hq
  obtain ⟨e, he, hpe⟩ := hp
  obtain ⟨h1, h2, h3, h4⟩ := hbounds e he
  subst hq
  subst hpe
  simp only [getPoint]
  refine ⟨?_, ?_, ?_, ?_⟩
  · exact div_nonneg (by linarith) (le_of_lt hw0)
  · rw [div_le_one hw0]; linarith
  · exact div_nonneg (by linarith) (le_of_lt hh0)
  · rw [div_le_one hh0]; linarith

/-- Witness for C3 (amended): a pen gesture from `(10,20)` through `(50,60)`
on a 100 × 100 raster; its first normalized point `(1/10, 1/5)` is inside
`[0,1]²`. -/
theorem C3_norm_bounds_witness :
    0 ≤ (1/10 : ℚ) ∧ (1/10 : ℚ) ≤ 1 ∧ 0 ≤ (1/5 : ℚ) ∧ (1/5 : ℚ) ≤ 1 :=
  C3_norm_bounds .pen ⟨0, 0⟩ ⟨10, 20⟩ [⟨50, 60⟩] 100 100 "#ef4444" 4 "y" 20
    ⟨[⟨1/10, 1/5⟩, ⟨1/2, 3/5⟩], "#ef4444", 4⟩
    (by decide) (by norm_num) (by norm_num)
    (by
      intro e he
      simp only [List.mem_cons, List.mem_singleton, List.not_mem_nil, or_false] at he
      rcases he with h | h <;> subst h <;> norm_num)
    (by
      rw [runGesture_path .pen (by decide) ⟨0, 0⟩ ⟨10, 20⟩ [⟨50, 60⟩] 100 100
        "#ef4444" 4 "y" 20]
      simp only [List.map_cons, List.map_nil, normalizePoints, getPoint]
      norm_num)
    ⟨1/10, 1/5⟩ (by simp)

/-! ## C8: quadratic-midpoint path smoothing and overlay scaling

`drawSmoothPath` (`SmartReader.tsx` lines 139-160) issues canvas 2D path
commands: `moveTo` the first scaled point; for a single-point path a
degenerate `lineTo` back onto it (a dot under round caps); otherwise a
`quadraticCurveTo` through each interior point to the midpoint with its
successor, and a final straight `lineTo` the last point.  The render effect
calls it with the viewport dimensions for the stored annotation (line 113)
and with scale `(1, 1)` for the in-progress stroke (line 120). -/

theorem smoothQuads_eq_range (sx sy : ℚ) (l : List DrawingPoint) :
    smoothQuads sx sy l
      = (List.range (l.length - 1)).map (fun k =>
          .quadTo (scalePt sx sy (l.getD k ⟨0, 0⟩))
            (scalePt sx sy (midPt (l.getD k ⟨0, 0⟩) (l.getD (k + 1) ⟨0, 0⟩)))) := by
  induction l with
  | nil => simp [smoothQuads]
  | cons a rest ih =>
    cases rest with
    | nil => simp [smoothQuads]
    | cons b rest2 =>
      have hlen : (a :: b :: rest2).length - 1 = ((b :: rest2).length - 1) + 1 := by
        simp
      rw [smoothQuads, ih, hlen, List.range_succ_eq_map]
      simp only [List.map_cons, List.map_map]
      refine List.cons_eq_cons.mpr ⟨rfl, ?_⟩
      apply List.map_congr_left
      intro k _
      rfl

theorem getLast_eq_getD (l : List DrawingPoint) (h : l ≠ []) :
    l.getLast h = l.getD (l.length - 1) ⟨0, 0⟩ := by
  rw [List.getLast_eq_getElem]
  rw [List.getD_eq_getElem l ⟨0, 0⟩ (by
    cases l with
    | nil => exact absurd rfl h
    | cons a rest => simp)]

/-- C8. (a) For every point list of length ≥ 2 (`n ≥ 1`), `drawSmoothPath`
issues exactly the claim's command sequence: `moveTo p₀`, quadratics with
control `pᵢ` to the midpoint of `pᵢ, pᵢ₊₁` for `i ∈ 1..n−1`, and a final
`lineTo pₙ`; (b) a single-point list issues a `moveTo`/`lineTo` dot onto
that point; (c) the stored annotation is drawn scaled by the viewport
dimensions while the in-progress stroke is drawn at scale `(1, 1)`. -/
theorem C8_smooth_path :
    (∀ (points : List DrawingPoint) (sx sy : ℚ), 2 ≤ points.length →
      drawSmoothPath points sx sy = claimSmoothPath points sx sy) ∧
    (∀ (p : DrawingPoint) (sx sy : ℚ),
      drawSmoothPath [p] sx sy
        = [.moveTo (scalePt sx sy p), .lineTo (scalePt sx sy p)]) ∧
    (∀ (a : DrawingPath) (cur : List DrawingPoint) (vw vh : ℚ), cur ≠ [] →
      overlayCmds (some a) cur vw vh
        = drawSmoothPath a.points vw vh ++ drawSmoothPath cur 1 1) ∧
    (∀ (a : DrawingPath) (vw vh : ℚ),
      overlayCmds (some a) [] vw vh = drawSmoothPath a.points vw vh) := by
  refine ⟨?_, ?_, ?_, ?_⟩
  · intro points sx sy hlen
    match points, hlen with
    | p :: q :: rest, _ =>
      rw [drawSmoothPath, claimSmoothPath]
      simp only [List.length_cons]
      have h1 : (p :: q :: rest).getD 0 ⟨0, 0⟩ = p := rfl
      have h2 : rest.length + 1 + 1 - 1 - 1 = (q :: rest).length - 1 := by simp
      have h3 : smoothQuads sx sy (q :: rest)
          = (List.range (rest.length + 1 + 1 - 1 - 1)).map (fun k =>
              .quadTo (scalePt sx sy ((p :: q :: rest).getD (k + 1) ⟨0, 0⟩))
                (scalePt sx sy
                  (midPt ((p :: q :: rest).getD (k + 1) ⟨0, 0⟩)
                    ((p :: q :: rest).getD (k + 2) ⟨0, 0⟩)))) := by
        rw [smoothQuads_eq_range, h2]
        apply List.map_congr_left
        intro k _
        rfl
      rw [h1, h3]
      have h4 : List.getLast (q :: rest) (by simp)
          = (p :: q :: rest).getD (rest.length + 1 + 1 - 1) ⟨0, 0⟩ := by
        rw [getLast_eq_getD]
        simp only [List.length_cons]
        have h5 : rest.length + 1 + 1 - 1 = rest.length + 1 := by omega
        have h6 : rest.length + 1 - 1 = rest.length := by omega
        rw [h5, h6]
        rfl
      rw [h4]
  · intro p sx sy
    rfl
  · intro a cur vw vh hcur
    simp [overlayCmds, hcur]
  · intro a vw vh
    simp [overlayCmds]

/-- Witness for C8 on a concrete three-point path `(0,0), (2,4), (6,8)` at
scale `(1, 1)` and a concrete overlay: the issued commands are exactly
`moveTo (0,0)`, `quadTo` through `(2,4)` to the midpoint `(4,6)`, `lineTo
(6,8)`. -/
theorem C8_smooth_path_witness :
    drawSmoothPath [⟨0, 0⟩, ⟨2, 4⟩, ⟨6, 8⟩] 1 1
      = claimSmoothPath [⟨0, 0⟩, ⟨2, 4⟩, ⟨6, 8⟩] 1 1 ∧
    overlayCmds (some ⟨[⟨0, 0⟩], "#ef4444", 4⟩) [⟨1, 1⟩] 50 60
      = drawSmoothPath [⟨0, 0⟩] 50 60 ++ drawSmoothPath [⟨1, 1⟩] 1 1 :=
  ⟨C8_smooth_path.1 [⟨0, 0⟩, ⟨2, 4⟩, ⟨6, 8⟩] 1 1 (by norm_num),
   C8_smooth_path.2.2.1 ⟨[⟨0, 0⟩], "#ef4444", 4⟩ [⟨1, 1⟩] 50 60 (by simp)⟩

/-! ## Text extraction (C5, C6, C7)

`getPageText` inside the text-extraction effect (`SmartReader.tsx` lines
309-391): per page, group text items into lines by y within a ±6 tolerance
(lines 325-340), sort lines by descending y (line 342), sort items in a
line by ascending x (lines 345-349), join item strings inserting a single
space only when the gap to the previous item's right edge exceeds 3 units
(lines 351-367), head the page with a `--- [Page n] ---` marker (line 371);
the effect fetches pages `{current−1, current, current+1}`, drops `null`
(out of range) and `''` (no items) results with `filter(Boolean)`, and
joins with newlines (lines 374-382). -/

/-- C5 counterexample: two consecutive items where the first ends exactly at
`x + width = −3 + 2 = −1` — colliding with the code's `lastEnd = −1`
"no previous item" sentinel — are joined with NO space although the gap to
the next item (x = 5) is `5 − (−1) = 6 > 3`; the claim requires a space for
every gap strictly above 3. -/
theorem C5_sentinel_counterexample :
    lineTextAux (-1)
      [⟨"A", [1, 0, 0, 1, -3, 100], 2⟩, ⟨"B", [1, 0, 0, 1, 5, 100], 1⟩] = "AB" ∧
    itemX ⟨"B", [1, 0, 0, 1, 5, 100], 1⟩
      - (itemX ⟨"A", [1, 0, 0, 1, -3, 100], 2⟩ + (2 : ℚ)) > 3 := by
  constructor
  · norm_num [lineTextAux, itemX, List.getD]
    rfl
  · norm_num [itemX, List.getD]

/-- C5 (amended). Between consecutive items of a reconstructed line a single
space is inserted iff the previous item's right edge `x + width` is not
exactly −1 (the code's "no previous item" sentinel) AND the gap to the next
item's x strictly exceeds 3 units; the spec's two examples hold: right edge
50 and next x 53 (gap 3) join with no space, next x 54 (gap 4) join with one
space. -/
theorem C5_word_spacing :
    (∀ (lastEnd : ℚ) (a b : PDFTextItem) (rest : List PDFTextItem),
      lineTextAux lastEnd (a :: b :: rest)
        = (if lastEnd ≠ -1 ∧ itemX a > lastEnd + 3 then " " else "")
          ++ a.str
          ++ (if itemX a + a.width ≠ -1 ∧ itemX b > itemX a + a.width + 3
              then " " else "")
          ++ b.str ++ lineTextAux (itemX b + b.width) rest) ∧
    lineTextAux (-1)
      [⟨"Hello", [1, 0, 0, 1, 30, 100], 20⟩, ⟨"World", [1, 0, 0, 1, 53, 100], 20⟩]
      = "HelloWorld" ∧
    lineTextAux (-1)
      [⟨"Hello", [1, 0, 0, 1, 30, 100], 20⟩, ⟨"World", [1, 0, 0, 1, 54, 100], 20⟩]
      = "Hello World" := by
  refine ⟨?_, ?_, ?_⟩
  · intro lastEnd a b rest
    simp only [lineTextAux, String.append_assoc]
  · norm_num [lineTextAux, itemX, List.getD]
    rfl
  · norm_num [lineTextAux, itemX, List.getD]
    rfl

/-- C6. (a) Two well-formed items whose y coordinates differ by strictly
less than 6 units land in one line; (b) items at y = 100 and y = 110 land
in two lines; (c) the reconstructed lines are ordered by descending
representative y; (d) the items of every line are ordered by ascending x
before joining. -/
theorem C6_line_grouping :
    (∀ (i1 i2 : PDFTextItem), 6 ≤ i1.transform.length → 6 ≤ i2.transform.length →
      |itemY i1 - itemY i2| < 6 → (groupLines [i1, i2]).length = 1) ∧
    (groupLines
      [⟨"a", [1, 0, 0, 1, 50, 100], 10⟩, ⟨"b", [1, 0, 0, 1, 50, 110], 10⟩]).length
      = 2 ∧
    (∀ items : List PDFTextItem,
      List.Pairwise (fun a b : TextLine => b.y ≤ a.y) (pageLines items)) ∧
    (∀ l : TextLine,
      List.Pairwise (fun a b : PDFTextItem => itemX a ≤ itemX b) (sortItems l)) := by
  refine ⟨?_, ?_, ?_, ?_⟩
  · intro i1 i2 h1 h2 hy
    have g1 : ¬ (i1.transform.length < 6) := by omega
    have g2 : ¬ (i2.transform.length < 6) := by omega
    simp only [groupLines, List.foldl_cons, List.foldl_nil, addToLines,
      if_neg g1, if_neg g2, insertItem]
    have hcond : |(⟨itemY i1, [i1]⟩ : TextLine).y - itemY i2| < yTolerance := by
      simpa [yTolerance] using hy
    rw [if_pos hcond]
    rfl
  · norm_num [groupLines, addToLines, insertItem, itemY, yTolerance,
      List.getD, abs, max_def]
  · intro items
    have htrans : ∀ a b c : TextLine, decide (b.y ≤ a.y) = true →
        decide (c.y ≤ b.y) = true → decide (c.y ≤ a.y) = true := by
      intro a b c hab hbc
      simp only [decide_eq_true_eq] at *
      exact le_trans hbc hab
    have htotal : ∀ a b : TextLine,
        (decide (b.y ≤ a.y) || decide (a.y ≤ b.y)) = true := by
      intro a b
      simp only [Bool.or_eq_true, decide_eq_true_eq]
      exact le_total b.y a.y
    have h := List.sorted_mergeSort htrans htotal (groupLines items)
    exact h.imp (fun hd => of_decide_eq_true hd)
  · intro l
    have htrans : ∀ a b c : PDFTextItem, decide (itemX a ≤ itemX b) = true →
        decide (itemX b ≤ itemX c) = true → decide (itemX a ≤ itemX c) = true := by
      intro a b c hab hbc
      simp only [decide_eq_true_eq] at *
      exact le_trans hab hbc
    have htotal : ∀ a b : PDFTextItem,
        (decide (itemX a ≤ itemX b) || decide (itemX b ≤ itemX a)) = true := by
      intro a b
      simp only [Bool.or_eq_true, decide_eq_true_eq]
      exact le_total (itemX a) (itemX b)
    have h := List.sorted_mergeSort htrans htotal l.items
    exact h.imp (fun hd => of_decide_eq_true hd)

/-- Witness for C6 at the spec's concrete inputs: items at y = 100 and
y = 104 (within the tolerance) merge into a single line. -/
theorem C6_line_grouping_witness :
    (groupLines
      [⟨"Hello", [1, 0, 0, 1, 10, 100], 5⟩, ⟨"World", [1, 0, 0, 1, 40, 104], 5⟩]).length
      = 1 :=
  C6_line_grouping.1 ⟨"Hello", [1, 0, 0, 1, 10, 100], 5⟩
    ⟨"World", [1, 0, 0, 1, 40, 104], 5⟩ (by norm_num) (by norm_num)
    (by norm_num [itemY, List.getD, abs, max_def])

theorem append_ne_empty_left {s : String} (t : String) (h : s ≠ "") :
    s ++ t ≠ "" := by
  intro hcontra
  apply h
  have hlen := congrArg String.length hcontra
  rw [String.length_append] at hlen
  have h0 : s.length = 0 := by
    have : String.length "" = 0 := rfl
    omega
  cases s with
  | mk data =>
    cases data with
    | nil => rfl
    | cons c cs => simp [String.length] at h0

theorem getPageText_out_of_range (doc : PDFDoc) (idx : ℤ)
    (h : idx < 0 ∨ (numPages doc : ℤ) ≤ idx) :
    getPageText doc idx = none := by
  simp [getPageText, h]

theorem getPageText_empty_items (doc : PDFDoc) (idx : ℤ)
    (h0 : 0 ≤ idx) (h1 : idx < (numPages doc : ℤ)) (h2 : pageItems doc idx = []) :
    getPageText doc idx = some "" := by
  rw [getPageText, if_neg (by omega), if_pos h2]

theorem getPageText_with_items (doc : PDFDoc) (idx : ℤ)
    (h0 : 0 ≤ idx) (h1 : idx < (numPages doc : ℤ)) (h2 : pageItems doc idx ≠ []) :
    getPageText doc idx
      = some ("--- [Page " ++ toString (idx + 1) ++ "] ---\n"
          ++ pageBody (pageItems doc idx) ++ "\n") := by
  rw [getPageText, if_neg (by omega), if_neg h2]

theorem contextAux (doc : PDFDoc) (idxs : List ℤ) :
    ((idxs.map (getPageText doc)).filterMap id).filter (fun s => decide (s ≠ ""))
      = (idxs.filter (fun idx => decide (0 ≤ idx) && decide (idx < (numPages doc : ℤ))
          && !(pageItems doc idx == []))).map
        (fun idx => "--- [Page " ++ toString (idx + 1) ++ "] ---\n"
          ++ pageBody (pageItems doc idx) ++ "\n") := by
  induction idxs with
  | nil => rfl
  | cons i rest ih =>
    simp only [List.map_cons, List.filterMap_cons, List.filter_cons]
    by_cases h1 : i < 0 ∨ (numPages doc : ℤ) ≤ i
    · rw [getPageText_out_of_range doc i h1]
      have hb : (decide (0 ≤ i) && decide (i < (numPages doc : ℤ))
          && !(pageItems doc i == [])) = false := by
        rcases h1 with h | h
        · have hd : decide (0 ≤ i) = false := decide_eq_false (by omega)
          simp [hd]
        · have hd : decide (i < (numPages doc : ℤ)) = false := decide_eq_false (by omega)
          simp [hd]
      rw [hb]
      simpa using ih
    · push_neg at h1
      obtain ⟨h0, hn⟩ := h1
      by_cases h2 : pageItems doc i = []
      · rw [getPageText_empty_items doc i h0 hn h2]
        have hb : (decide (0 ≤ i) && decide (i < (numPages doc : ℤ))
            && !(pageItems doc i == [])) = false := by
          simp [h2]
        rw [hb]
        simp only [List.filterMap_cons, id, List.filter_cons]
        have : (decide (("" : String) ≠ "")) = false := by decide
        rw [this]
        simpa using ih
      · rw [getPageText_with_items doc i h0 hn h2]
        have hb : (decide (0 ≤ i) && decide (i < (numPages doc : ℤ))
            && !(pageItems doc i == [])) = true := by
          simp [h2, h0, hn]
        rw [hb]
        simp only [List.filterMap_cons, id, List.filter_cons]
        have hne : ("--- [Page " ++ toString (i + 1) ++ "] ---\n"
            ++ pageBody (pageItems doc i) ++ "\n") ≠ "" := by
          rw [String.append_assoc, String.append_assoc, String.append_assoc]
          exact append_ne_empty_left _ (by decide)
        rw [decide_eq_true hne]
        simp only [if_pos, List.map_cons]
        rw [ih]

/-- C7 counterexample: a one-page document whose only page has zero text
items.  Page 0 is in range, so the claim requires its text in the delivered
context headed by the marker `--- [Page 1] ---`; the code returns `''` for
it, `filter(Boolean)` drops it, and the delivered context is the empty
string — containing no marker at all. -/
theorem C7_empty_page_counterexample :
    combinedContext ⟨[[]]⟩ 0 = "" ∧
    claimedContext ⟨[[]]⟩ 0 = "--- [Page 1] ---\n\n" ∧
    combinedContext ⟨[[]]⟩ 0 ≠ claimedContext ⟨[[]]⟩ 0 := by
  have h1 : combinedContext ⟨[[]]⟩ 0 = "" := rfl
  have hbody : pageBody ([] : List PDFTextItem) = "" := by
    simp only [pageBody, pageLines, sortLines, groupLines, List.foldl_nil,
      List.mergeSort_nil, List.map_nil]
    rfl
  have h2 : claimedContext ⟨[[]]⟩ 0 = "--- [Page 1] ---\n\n" := by
    rw [claimedContext]
    have hf : ([(0 : ℤ) - 1, 0, 0 + 1].filter
        (fun idx => decide (0 ≤ idx) && decide (idx < (numPages (⟨[[]]⟩ : PDFDoc) : ℤ))))
        = [0] := rfl
    rw [hf]
    simp only [List.map_cons, List.map_nil]
    have hp : pageItems (⟨[[]]⟩ : PDFDoc) 0 = [] := rfl
    rw [hp, hbody]
    rfl
  refine ⟨h1, h2, ?_⟩
  rw [h1, h2]
  intro h
  have hlen := congrArg String.length h
  have hz : ("" : String).length = 0 := rfl
  have h18 : ("--- [Page 1] ---\n\n" : String).length = 18 := rfl
  omega

/-- C7 (amended). The delivered text context equals the newline-join of the
pages `{current−1, current, current+1}` restricted to indices that are in
range AND have at least one text item, each headed by its 1-based
page-number marker; in-range pages with no items contribute nothing (they
are dropped markerless, like out-of-range indices).  Every fetched in-range
page with items is marker-headed. -/
theorem C7_context_window :
    (∀ (doc : PDFDoc) (visible : ℤ),
      combinedContext doc visible = claimedContextAmended doc visible) ∧
    (∀ (doc : PDFDoc) (idx : ℤ), 0 ≤ idx → idx < (numPages doc : ℤ) →
      pageItems doc idx ≠ [] →
      getPageText doc idx
        = some ("--- [Page " ++ toString (idx + 1) ++ "] ---\n"
            ++ pageBody (pageItems doc idx) ++ "\n")) := by
  constructor
  · intro doc visible
    rw [combinedContext, claimedContextAmended]
    rw [contextAux doc [visible - 1, visible, visible + 1]]
  · intro doc idx h0 h1 h2
    exact getPageText_with_items doc idx h0 h1 h2

/-- Witness for C7 (amended) on a concrete two-page document (page 1 has an
item, page 2 is empty) viewed at page 0: the delivered context is page 1's
marker-headed text only. -/
theorem C7_context_window_witness :
    combinedContext ⟨[[⟨"Hi", [1, 0, 0, 1, 10, 700], 8⟩], []]⟩ 0
      = claimedContextAmended ⟨[[⟨"Hi", [1, 0, 0, 1, 10, 700], 8⟩], []]⟩ 0 ∧
    getPageText ⟨[[⟨"Hi", [1, 0, 0, 1, 10, 700], 8⟩], []]⟩ 0
      = some ("--- [Page " ++ toString (0 + 1 : ℤ) ++ "] ---\n"
          ++ pageBody (pageItems ⟨[[⟨"Hi", [1, 0, 0, 1, 10, 700], 8⟩], []]⟩ 0) ++ "\n") :=
  ⟨C7_context_window.1 ⟨[[⟨"Hi", [1, 0, 0, 1, 10, 700], 8⟩], []]⟩ 0,
   C7_context_window.2 ⟨[[⟨"Hi", [1, 0, 0, 1, 10, 700], 8⟩], []]⟩ 0
     (by norm_num) (by norm_num [numPages]) (by simp [pageItems])⟩

/-! ## C2: a newer render supersedes an older one

The page render effect (`SmartReader.tsx` lines 76-136) runs once per
dependency change.  Each run declares `isCancelled = false` and
`renderTask = null` (lines 79-80), suspends at `await pdfDoc.getPage`
(line 84) and checks `isCancelled` on resumption (line 85); the block from
line 87 to starting the library render task (line 101) is synchronous (no
interleaving on the event loop); the task then paints pixels asynchronously
until its promise settles; the run suspends at `await renderTask.promise`
(line 102) and checks `isCancelled` again (line 104) before drawing the
overlay.  The effect cleanup (lines 132-135) sets `isCancelled = true` and
cancels the task; React runs the old run's cleanup before a newer run
begins.  We model the timeline as a list of events over run ordinals and
collect which run writes to the canvas at each event. -/

theorem stepRender_cancelled (σ : ℕ → RenderInst) (e : RenderEvent) (i : ℕ)
    (h : (σ i).cancelled = true) :
    ((stepRender σ e).1 i).cancelled = true ∧ i ∉ (stepRender σ e).2 := by
  cases e with
  | resumePage j =>
    by_cases hij : j = i
    · subst hij
      simp only [stepRender]
      by_cases hpc : (σ j).pc = RenderPC.awaitingPage
      · rw [if_pos hpc, if_pos h]
        simp [Function.update_same, h]
      · rw [if_neg hpc]
        simp [h]
    · simp only [stepRender]
      by_cases hpc : (σ j).pc = RenderPC.awaitingPage
      · rw [if_pos hpc]
        by_cases hc : (σ j).cancelled
        · rw [if_pos hc]
          simp [Function.update_noteq (Ne.symm hij), h]
        · rw [if_neg hc]
          simp [Function.update_noteq (Ne.symm hij), h, hij]
          omega
      · rw [if_neg hpc]
        simp [h]
  | taskProgress j =>
    by_cases hij : j = i
    · subst hij
      simp only [stepRender]
      rw [if_neg (by simp [h])]
      simp [h]
    · simp only [stepRender]
      by_cases hcond : (σ j).pc = RenderPC.awaitingPromise ∧ (σ j).cancelled = false
      · rw [if_pos hcond]
        simp [h, hij]
        omega
      · rw [if_neg hcond]
        simp [h]
  | resumePromise j =>
    by_cases hij : j = i
    · subst hij
      simp only [stepRender]
      by_cases hpc : (σ j).pc = RenderPC.awaitingPromise
      · rw [if_pos hpc, if_pos h]
        simp [Function.update_same, h]
      · rw [if_neg hpc]
        simp [h]
    · simp only [stepRender]
      by_cases hpc : (σ j).pc = RenderPC.awaitingPromise
      · rw [if_pos hpc]
        by_cases hc : (σ j).cancelled
        · rw [if_pos hc]
          simp [Function.update_noteq (Ne.symm hij), h]
        · rw [if_neg hc]
          simp [Function.update_noteq (Ne.symm hij), h, hij]
          omega
      · rw [if_neg hpc]
        simp [h]
  | cleanup j =>
    by_cases hij : j = i
    · subst hij
      simp only [stepRender]
      simp [Function.update_same]
    · simp only [stepRender]
      simp [Function.update_noteq (Ne.symm hij), h]

theorem runRender_cancelled (tr : List RenderEvent) (σ : ℕ → RenderInst) (i : ℕ)
    (h : (σ i).cancelled = true) :
    ((runRender σ tr).1 i).cancelled = true ∧ i ∉ (runRender σ tr).2 := by
  induction tr generalizing σ with
  | nil => exact ⟨h, by simp [runRender]⟩
  | cons e rest ih =>
    obtain ⟨hstep, hw⟩ := stepRender_cancelled σ e i h
    obtain ⟨hrest, hwrest⟩ := ih (stepRender σ e).1 hstep
    refine ⟨hrest, ?_⟩
    simp only [runRender, List.mem_append]
    rintro (hc | hc)
    · exact hw hc
    · exact hwrest hc

theorem runRender_append (σ : ℕ → RenderInst) (l₁ l₂ : List RenderEvent) :
    runRender σ (l₁ ++ l₂)
      = ((runRender (runRender σ l₁).1 l₂).1,
         (runRender σ l₁).2 ++ (runRender (runRender σ l₁).1 l₂).2) := by
  induction l₁ generalizing σ with
  | nil => simp [runRender]
  | cons e rest ih =>
    simp only [List.cons_append, runRender, List.append_eq]
    rw [ih]
    simp [List.append_assoc]

/-- C2. On any page render timeline, once run `i`'s effect cleanup has
executed (`isCancelled := true`, `renderTask.cancel()`), run `i` never
writes to the page's canvas again: in every continuation `post` of the
timeline — which in particular contains all events of any newer render run,
since React executes the superseded run's cleanup before the newer run
begins — no canvas write is attributed to run `i`.  Hence the pixels and
overlay of a superseded render are never written after a newer render
begins, and only the newest run's result is displayed. -/
theorem C2_render_supersession :
    ∀ (σ : ℕ → RenderInst) (pre post : List RenderEvent) (i : ℕ),
      ((runRender σ (pre ++ [.cleanup i])).1 i).cancelled = true ∧
      i ∉ (runRender (runRender σ (pre ++ [.cleanup i])).1 post).2 := by
  intro σ pre post i
  have hcancel : ((runRender σ (pre ++ [.cleanup i])).1 i).cancelled = true := by
    rw [runRender_append]
    simp only [runRender, stepRender]
    simp [Function.update_same]
  exact ⟨hcancel,
    (runRender_cancelled post (runRender σ (pre ++ [.cleanup i])).1 i hcancel).2⟩
